import Mathlib

/-!
Shallow embedding of the studymcq_telebot quiz core.

The definitions below are translated from the Python sources:
* `src/database/queries.py`   (class `DatabaseQueries`)
* `src/services/quiz_manager.py` (class `QuizManager`)
* `src/handlers/messages.py`  (`MessageHandlers._parse_options`)
* `src/handlers/callbacks.py` (`handle_edit_response`, branch `edit_delete_confirm`)

Modelling conventions:
* The sqlite `question_bank` table is a `List Row`; `WHERE user_id = ?`
  filters become `List.filter`; `UPDATE ... WHERE` becomes `List.map` with a
  conditional rewrite (SQL evaluates the SET right-hand sides against the
  old row, which the embedding reproduces).
* Python floats (`accuracy`, weights, percentages) are modelled as `ℚ`.
* `random.random()` outputs are passed in explicitly as a stream
  `rand : List ℚ` of values in `[0,1)`; `random.choices` is modelled after
  CPython: cumulative weights, then for each draw `bisect_right` of
  `random() * total` into the cumulative list bounded by `hi = n - 1`.
* `context.user_data` keys `current_quiz` / `current_question` / `score`
  become `Option` fields of `Session`; `dict.get(key, default)` becomes
  `Option.getD`.
-/

namespace StudyMCQ

/-- A row of the sqlite `question_bank` table (`src/database/models.py`):
`id, user_id, question, options, correct_answer, explanation, source,
times_asked (DEFAULT 0), times_correct (DEFAULT 0)` plus the `accuracy`
column written by `queries.py`.  `options` is stored as a JSON list of
strings; the embedding keeps it as `List String` (the code round-trips it
through `json.dumps`/`json.loads` unchanged). -/
structure Row where
  id : Nat
  user_id : Nat
  question : String
  options : List String
  correct_answer : String
  explanation : String
  source : String
  times_asked : Nat
  times_correct : Nat
  accuracy : ℚ
deriving Repr, DecidableEq, Inhabited

/-- One in-memory mcq dict as placed into the quiz session by
`get_random_questions` (row fields minus the stats columns, weight popped). -/
structure Mcq where
  id : Nat
  question : String
  options : List String
  correct_answer : String
  explanation : String
  source : String
deriving Repr, DecidableEq, Inhabited

/-- The dict built for each row in the loop of `get_random_questions`,
minus the `weight` key. -/
def toMcq (r : Row) : Mcq :=
  { id := r.id, question := r.question, options := r.options,
    correct_answer := r.correct_answer, explanation := r.explanation,
    source := r.source }

/-- Weight computation inside `get_random_questions`
(`src/database/queries.py:160-166`): `0.6` for never-attempted questions,
otherwise `1.0 - accuracy + 0.2`. -/
def weight (r : Row) : ℚ :=
  if r.times_asked = 0 then (0.6 : ℚ) else 1 - r.accuracy + (0.2 : ℚ)

/-- One entry of `questions_with_weights` (`queries.py:168-176`). -/
def rowToWeighted (r : Row) : Mcq × ℚ := (toMcq r, weight r)

/-- `itertools.accumulate` over the weights, used by CPython's
`random.choices`: running partial sums. -/
def accumulate : List ℚ → ℚ → List ℚ
  | [], _ => []
  | w :: ws, acc => (acc + w) :: accumulate ws (acc + w)

/-- `bisect.bisect_right(cum_weights, x, 0, hi)` with `hi = n - 1` as in
CPython's `random.choices`: the number of entries among the first `n - 1`
cumulative weights that are `≤ x`. -/
def chooseIndex (cum : List ℚ) (x : ℚ) : Nat :=
  (cum.take (cum.length - 1)).countP (fun c => decide (c ≤ x))

/-- CPython `random.choices(population, weights=ws, k=k)`: `k` independent
draws (with replacement), the `i`-th using the random value `rand[i]`
scaled by the total weight. -/
def choicesW (pop : List (Mcq × ℚ)) (rand : List ℚ) (k : Nat) : List (Mcq × ℚ) :=
  let cum := accumulate (pop.map (fun q => q.2)) 0
  let total := cum.getLastD 0
  (List.range k).map (fun i => pop.getD (chooseIndex cum ((rand.getD i 0) * total)) default)

/-- `DatabaseQueries.get_random_questions` (`queries.py:131-194`):
select the user's rows, weight them, return them all when the pool is not
larger than the request, otherwise draw `min(num_questions, pool size)`
samples via `random.choices` and drop the weight field. -/
def get_random_questions (db : List Row) (user_id : Nat) (num_questions : Int)
    (rand : List ℚ) : List Mcq :=
  let all_questions := db.filter (fun r => decide (r.user_id = user_id))
  if all_questions.isEmpty then []
  else
    let questions_with_weights := all_questions.map rowToWeighted
    if (questions_with_weights.length : Int) ≤ num_questions then
      questions_with_weights.map (fun q => q.1)
    else
      let k := min num_questions (questions_with_weights.length : Int)
      (choicesW questions_with_weights rand k.toNat).map (fun q => q.1)

/-- `DatabaseQueries.get_question_count` (`queries.py:196-203`):
`SELECT COUNT(*) FROM question_bank WHERE user_id = ?`. -/
def get_question_count (db : List Row) (user_id : Nat) : Nat :=
  (db.filter (fun r => decide (r.user_id = user_id))).length

/-- Effect of `DatabaseQueries.update_question_stats` (`queries.py:213-231`)
on a single matching row.  SQL evaluates the SET right-hand sides against
the old row: on a correct answer `times_asked`, `times_correct` are
incremented and `accuracy = (times_correct + 1) / (times_asked + 1)`;
otherwise only `times_asked` is incremented and
`accuracy = times_correct / (times_asked + 1)`. -/
def statStep (is_correct : Bool) (r : Row) : Row :=
  if is_correct then
    { r with times_asked := r.times_asked + 1,
             times_correct := r.times_correct + 1,
             accuracy := ((r.times_correct : ℚ) + 1) / ((r.times_asked : ℚ) + 1) }
  else
    { r with times_asked := r.times_asked + 1,
             accuracy := (r.times_correct : ℚ) / ((r.times_asked : ℚ) + 1) }

/-- `DatabaseQueries.update_question_stats`: `UPDATE question_bank ...
WHERE id = ?`. -/
def update_question_stats (db : List Row) (question_id : Nat) (is_correct : Bool) :
    List Row :=
  db.map (fun r => if r.id = question_id then statStep is_correct r else r)

/-- `clean_text` inside `DatabaseQueries.save_question` (`queries.py:108-114`):
replace newlines by spaces, collapse whitespace runs
(`' '.join(text.split())`), strip. -/
def clean_text (s : String) : String :=
  (" ".intercalate (((s.replace "\n" " ").split Char.isWhitespace).filter
    (fun w => w ≠ ""))).trim

/-- The row inserted by `DatabaseQueries.save_question` (`queries.py:105-129`):
text fields cleaned (`correct_answer` is not cleaned), `accuracy` written as
`0.0`, and `times_asked` / `times_correct` taking the schema defaults `0`. -/
def save_question_row (user_id : Nat) (id : Nat) (question : String)
    (options : List String) (correct_answer : String) (explanation : String)
    (source : String) : Row :=
  { id := id, user_id := user_id,
    question := clean_text question,
    options := options.map clean_text,
    correct_answer := correct_answer,
    explanation := clean_text explanation,
    source := clean_text source,
    times_asked := 0, times_correct := 0, accuracy := 0 }

/-- `DatabaseQueries.update_question` (`queries.py:282-340`): ownership check
(`WHERE id = ? AND user_id = ?`), then an UPDATE that sets only the supplied
fields and always resets `accuracy`, `times_asked`, `times_correct` to zero. -/
def update_question (db : List Row) (question_id : Nat) (user_id : Nat)
    (question : Option String) (options : Option (List String))
    (correct_answer : Option String) (explanation : Option String) :
    Bool × List Row :=
  if ¬ db.any (fun r => decide (r.id = question_id) && decide (r.user_id = user_id)) then
    (false, db)
  else
    (true, db.map (fun r =>
      if r.id = question_id ∧ r.user_id = user_id then
        { r with
          question := question.getD r.question,
          options := options.getD r.options,
          correct_answer := correct_answer.getD r.correct_answer,
          explanation := explanation.getD r.explanation,
          accuracy := 0, times_asked := 0, times_correct := 0 }
      else r))

/-- `DatabaseQueries.delete_question` (`queries.py:342-355`): ownership check,
then `DELETE FROM question_bank WHERE id = ? AND user_id = ?`. -/
def delete_question (db : List Row) (question_id : Nat) (user_id : Nat) :
    Bool × List Row :=
  if ¬ db.any (fun r => decide (r.id = question_id) && decide (r.user_id = user_id)) then
    (false, db)
  else
    (true, db.filter (fun r => ¬ (r.id = question_id ∧ r.user_id = user_id)))

/-- One row of the `quiz_history` table, appended by
`DatabaseQueries.save_quiz_result` (`queries.py:254-264`). -/
structure QuizResult where
  user_id : Nat
  question_id : Nat
  user_answer : String
  is_correct : Bool
deriving Repr, DecidableEq

/-- The quiz-related entries of `context.user_data`.  A `none` field models
an absent dict key; the getters below apply the defaults used by
`dict.get(key, default)` in `quiz_manager.py`. -/
structure Session where
  current_quiz : Option (List Mcq) := none
  current_question : Option Nat := none
  score : Option Nat := none
deriving Repr, DecidableEq

/-- `context.user_data.get('current_quiz', [])`. -/
def Session.quizD (s : Session) : List Mcq := s.current_quiz.getD []

/-- `context.user_data.get('current_question', 0)`. -/
def Session.idxD (s : Session) : Nat := s.current_question.getD 0

/-- `context.user_data.get('score', 0)`. -/
def Session.scoreD (s : Session) : Nat := s.score.getD 0

/-- The three failure messages `start_quiz` can return
(`BotMessages.EMPTY_BANK_ERROR`, `INVALID_QUIZ_COUNT`, `QUIZ_LOAD_ERROR`). -/
inductive StartError
  | emptyBank
  | invalidCount
  | loadError
deriving Repr, DecidableEq

/-- `QuizManager.start_quiz` (`quiz_manager.py:13-38`).  The requested count
arrives as a Python `int`, hence `Int` here.  On success the three session
keys are overwritten; on failure the function returns before touching them. -/
def start_quiz (db : List Row) (user_id : Nat) (num_questions : Int)
    (rand : List ℚ) (st : Session) : Except StartError (List Mcq) × Session :=
  let question_count := get_question_count db user_id
  if question_count = 0 then (Except.error StartError.emptyBank, st)
  else if num_questions < 1 ∨ (question_count : Int) < num_questions then
    (Except.error StartError.invalidCount, st)
  else
    let mcqs := get_random_questions db user_id num_questions rand
    if mcqs.isEmpty then (Except.error StartError.loadError, st)
    else (Except.ok mcqs,
          { current_quiz := some mcqs, current_question := some 0, score := some 0 })

/-- `QuizManager.get_current_question` (`quiz_manager.py:40-47`). -/
def get_current_question (st : Session) : Option Mcq :=
  st.quizD.get? st.idxD

/-- `QuizManager.is_quiz_complete` (`quiz_manager.py:49-53`). -/
def is_quiz_complete (st : Session) : Bool :=
  st.quizD.length ≤ st.idxD

/-- The dict returned by `QuizManager.process_answer`. -/
structure AnswerResult where
  is_correct : Bool
  correct_answer : String
  explanation : String
deriving Repr, DecidableEq

/-- Combined result of `QuizManager.process_answer`: the returned dict, the
session after the score update, and the database tables it wrote
(`question_bank` via `update_question_stats`, `quiz_history` via
`save_quiz_result`). -/
structure AnswerOutcome where
  result : Option AnswerResult
  session : Session
  bank : List Row
  history : List QuizResult
deriving Repr, DecidableEq

/-- `QuizManager.process_answer` (`quiz_manager.py:55-82`): look up the
current question (returning `None` when past the end), compare the answer
label with `==`, append to quiz history, update the question's statistics,
and bump the score only on a correct answer.  The index is not touched. -/
def process_answer (bank : List Row) (history : List QuizResult) (user_id : Nat)
    (user_answer : String) (st : Session) : AnswerOutcome :=
  match get_current_question st with
  | none => { result := none, session := st, bank := bank, history := history }
  | some mcq =>
    let correct_answer := mcq.correct_answer
    let is_correct := user_answer == correct_answer
    let history' := history ++ [{ user_id := user_id, question_id := mcq.id,
                                  user_answer := user_answer, is_correct := is_correct }]
    let bank' := update_question_stats bank mcq.id is_correct
    let st' := if is_correct then { st with score := some (st.scoreD + 1) } else st
    { result := some { is_correct := is_correct, correct_answer := correct_answer,
                       explanation := mcq.explanation },
      session := st', bank := bank', history := history' }

/-- `QuizManager.next_question` (`quiz_manager.py:84-86`). -/
def next_question (st : Session) : Session :=
  { st with current_question := some (st.idxD + 1) }

/-- The dict returned by `QuizManager.get_quiz_summary`. -/
structure Summary where
  score : Nat
  total : Nat
  percentage : ℚ
deriving Repr, DecidableEq

/-- `QuizManager.get_quiz_summary` (`quiz_manager.py:88-99`). -/
def get_quiz_summary (st : Session) : Summary :=
  let score := st.scoreD
  let total := st.quizD.length
  { score := score, total := total,
    percentage := if 0 < total then (score : ℚ) / (total : ℚ) * 100 else 0 }

/-- The dict returned by `QuizManager.get_quiz_progress`. -/
structure Progress where
  score : Nat
  answered : Nat
  total : Nat
  percentage : ℚ
deriving Repr, DecidableEq

/-- `QuizManager.get_quiz_progress` (`quiz_manager.py:101-114`). -/
def get_quiz_progress (st : Session) : Progress :=
  let score := st.scoreD
  let answered := st.idxD
  let total := st.quizD.length
  { score := score, answered := answered, total := total,
    percentage := if 0 < answered then (score : ℚ) / (answered : ℚ) * 100 else 0 }

/-- `QuizManager.end_quiz` (`quiz_manager.py:116-121`): pops all session keys. -/
def end_quiz (_st : Session) : Session :=
  { current_quiz := none, current_question := none, score := none }

/-- The `for i, q in enumerate(quiz): if q.get('id') == question_id: ...
break` search of `callbacks.py:292-296`: position of the first matching
snapshot entry. -/
def removedIndex (question_id : Nat) : List Mcq → Option Nat
  | [] => none
  | q :: qs =>
    if q.id = question_id then some 0
    else (removedIndex question_id qs).map (fun i => i + 1)

/-- The in-memory part of the `edit_delete_confirm` branch of
`CallbackHandlers.handle_edit_response` (`callbacks.py:287-299`), run after a
successful database delete: remove the first snapshot entry whose id matches
(`for ... if q.get('id') == question_id: quiz.pop(i); break`), then decrement
the index iff the removed position was at or before it and it is positive.
The list mutation only lands in `user_data` when the key exists. -/
def delete_from_session (st : Session) (question_id : Nat) : Session :=
  let quiz := st.quizD
  let curr_idx := st.idxD
  match removedIndex question_id quiz with
  | none => st
  | some removed_index =>
    let st1 : Session :=
      { st with current_quiz := st.current_quiz.map (fun _ => quiz.eraseIdx removed_index) }
    if removed_index ≤ curr_idx ∧ 0 < curr_idx then
      { st1 with current_question := some (curr_idx - 1) }
    else st1

/-! Section: Option-line parsing (`MessageHandlers._parse_options`, `handlers/messages.py:39-71`)

The parser is embedded over `List Char`.  Python `str.strip` /
`str.splitlines` are modelled by `pyStripList` / `splitOnNl` (input lines of
interest are LF-separated).  The regex
`^\s*([A-Da-d])\s*[)\-\.:]?\s*(.+)$` is embedded by `matchOptionLine`, which
reproduces Python's leftmost-greedy backtracking semantics: each `\s*` is
taken greedily, the optional separator class is tried, and on failure of the
final mandatory `(.+)` the engine gives characters back (so a line such as
`"A)"` matches with group 2 = `")"`). -/

/-- `\s` on the characters of interest: Python regex whitespace. -/
def isWS (c : Char) : Bool := c.isWhitespace

/-- The separator class `[)\-\.:]` of the regex: one of `)`, `-`, `.`, `:`.
The comma is not in the class. -/
def isSep (c : Char) : Bool := c = ')' || c = '-' || c = '.' || c = ':'

/-- The label class `[A-Da-d]`, written out extensionally: the class covers
exactly the codepoints 65–68 (`A`–`D`) and 97–100 (`a`–`d`). -/
def isLabelChar (c : Char) : Bool :=
  (['A', 'B', 'C', 'D', 'a', 'b', 'c', 'd'] : List Char).contains c

/-- Drop trailing whitespace (the right half of Python `str.strip`). -/
def dropTrailWS : List Char → List Char
  | [] => []
  | c :: cs =>
    let r := dropTrailWS cs
    if r.isEmpty then (if isWS c then [] else [c]) else c :: r

/-- Python `str.strip` over a character list. -/
def pyStripList (cs : List Char) : List Char :=
  dropTrailWS (cs.dropWhile isWS)

/-- Split a character list at `'\n'` (Python `str.splitlines` for
LF-separated text). -/
def splitOnNl : List Char → List (List Char)
  | [] => [[]]
  | c :: cs =>
    match splitOnNl cs with
    | [] => [[c]]
    | l :: ls => if c = '\n' then [] :: l :: ls else (c :: l) :: ls

/-- `[l.strip() for l in text.strip().splitlines() if l.strip()]`
(`messages.py:48`). -/
def optionLines (text : List Char) : List (List Char) :=
  ((splitOnNl (pyStripList text)).map pyStripList).filter (fun l => ¬ l.isEmpty)

/-- Matching of the regex tail `\s*[)\-\.:]?\s*(.+)$` against the characters
after the label, returning group 2.  Case analysis of the backtracking
search: take the whitespace run; if a separator follows and non-empty input
remains after the subsequent whitespace run, group 2 is that remainder;
when the input after the separator is exhausted the engine backtracks,
handing the last consumed whitespace character (or the separator itself)
to `(.+)`; with no separator, group 2 starts at the first
non-whitespace character; an all-whitespace input leaves its final
character for `(.+)`. -/
def matchTail (cs : List Char) : Option (List Char) :=
  match cs.dropWhile isWS with
  | [] => if cs.isEmpty then none else some [cs.getLastD ' ']
  | s :: cs2 =>
    if isSep s then
      match cs2.dropWhile isWS with
      | [] => if cs2.isEmpty then some [s] else some [cs2.getLastD ' ']
      | cs3hd :: cs3tl => some (cs3hd :: cs3tl)
    else some (s :: cs2)

/-- `re.match(r"^\s*([A-Da-d])\s*[)\-\.:]?\s*(.+)$", line)`
(`messages.py:56`): skip leading whitespace, demand a label character, then
match the tail; returns `(label character, group 2)`. -/
def matchOptionLine (line : List Char) : Option (Char × List Char) :=
  match line.dropWhile isWS with
  | [] => none
  | c :: rest =>
    if isLabelChar c then (matchTail rest).map (fun g2 => (c, g2)) else none

/-- The `ValueError`s raised by `_parse_options`, one constructor per
`raise` site. -/
inductive ParseErr
  | invalidLineCount
  | invalidLine (line : List Char)
  | duplicateLabel (label : Char)
  | emptyText (label : Char)
  | wrongLabels
deriving Repr, DecidableEq

/-- The `for line in lines` loop of `_parse_options` (`messages.py:55-65`),
accumulating the `parsed` mapping in insertion order: match the line, fail
on a duplicate uppercased label, strip group 2 and fail if it is empty. -/
def parseLoop : List (List Char) → List (Char × List Char) →
    Except ParseErr (List (Char × List Char))
  | [], parsed => Except.ok parsed
  | line :: rest, parsed =>
    match matchOptionLine line with
    | none => Except.error (ParseErr.invalidLine line)
    | some (c, g2) =>
      let label := c.toUpper
      if (parsed.lookup label).isSome then Except.error (ParseErr.duplicateLabel label)
      else
        let opt_text := pyStripList g2
        if opt_text.isEmpty then Except.error (ParseErr.emptyText label)
        else parseLoop rest (parsed ++ [(label, opt_text)])

/-- The fixed list `expected = ['A', 'B', 'C', 'D']`. -/
def expectedLabels : List Char := ['A', 'B', 'C', 'D']

/-- Spec-level acceptance condition for one (already stripped, non-empty)
option line: it starts with a label character `[A-Da-d]` and has at least
one further character.  `matchOptionLine` accepts exactly such lines — the
backtracking `(.+)` swallows a lone trailing separator, so `"A)"` is
accepted with text `")"`. -/
def lineAccepted (l : List Char) : Prop :=
  isLabelChar (l.headD ' ') = true ∧ 2 ≤ l.length

/-- The uppercased label a (stripped) option line files under. -/
def lineLabel (l : List Char) : Char := (l.headD ' ').toUpper

/-- `MessageHandlers._parse_options` (`messages.py:39-71`): split and strip
the lines, require exactly 4, run the parse loop, require the label set to
be exactly `{A,B,C,D}`, and return the normalized `"A) text"` list in label
order together with the label map. -/
def parse_options (text : String) :
    Except ParseErr (List String × List (Char × String)) :=
  let lines := optionLines text.toList
  if lines.length ≠ 4 then Except.error ParseErr.invalidLineCount
  else
    match parseLoop lines [] with
    | Except.error e => Except.error e
    | Except.ok parsed =>
      let keys := parsed.map (fun p => p.1)
      if ¬ (expectedLabels.all (fun l => keys.contains l) &&
            keys.all (fun l => expectedLabels.contains l)) then
        Except.error ParseErr.wrongLabels
      else
        Except.ok
          (expectedLabels.map (fun lbl =>
             String.mk [lbl] ++ ") " ++ String.mk ((parsed.lookup lbl).getD [])),
           parsed.map (fun p => (p.1, String.mk p.2)))

/-! Concrete fixtures and spec-level predicates used by the theorems below. -/

/-- The accuracy invariant of the spec:
`accuracy == times_correct / times_asked` when `times_asked > 0`,
conventionally `0` when `times_asked == 0`. -/
def statInvariant (r : Row) : Prop :=
  r.accuracy = if r.times_asked = 0 then 0 else (r.times_correct : ℚ) / (r.times_asked : ℚ)

/-- Replay a sequence of answer recordings (`true` = correct) against one
row, in order. -/
def replayStats (r : Row) (bs : List Bool) : Row :=
  bs.foldl (fun s b => statStep b s) r

/-- The relation between a question-bank row before and after a successful
`update_question`: only the supplied fields are overwritten, the identity
and source are untouched, and the three statistics fields are reset to
zero regardless of their prior values. -/
def updatedRow (question : Option String) (options : Option (List String))
    (correct_answer : Option String) (explanation : Option String)
    (old new : Row) : Prop :=
  new = { old with
          question := question.getD old.question,
          options := options.getD old.options,
          correct_answer := correct_answer.getD old.correct_answer,
          explanation := explanation.getD old.explanation,
          accuracy := 0, times_asked := 0, times_correct := 0 }

/-- A concrete two-question bank used to exercise the summary scenario. -/
def rowA : Row :=
  { id := 10, user_id := 7, question := "2+2?",
    options := ["A) 4", "B) 3", "C) 2", "D) 1"], correct_answer := "A",
    explanation := "four", source := "doc", times_asked := 0,
    times_correct := 0, accuracy := 0 }

/-- Second question of the concrete two-question bank. -/
def rowB : Row :=
  { id := 11, user_id := 7, question := "3+3?",
    options := ["A) 4", "B) 6", "C) 2", "D) 1"], correct_answer := "B",
    explanation := "six", source := "doc", times_asked := 0,
    times_correct := 0, accuracy := 0 }

/-- A full two-question run: start, answer the first correctly, advance,
answer the second incorrectly, advance.  Final session state. -/
def demoS3 : Session :=
  let s1 := (start_quiz [rowA, rowB] 7 2 [] { }).2
  let o1 := process_answer [rowA, rowB] [] 7 "A" s1
  let s2 := next_question o1.session
  let o2 := process_answer o1.bank o1.history 7 "C" s2
  next_question o2.session

/-- A fully mastered question: asked once, answered correctly, accuracy 1. -/
def rowMastered : Row :=
  { id := 1, user_id := 7, question := "q", options := ["A) 1"],
    correct_answer := "A", explanation := "e", source := "s",
    times_asked := 1, times_correct := 1, accuracy := 1 }

/-- Three never-attempted questions owned by user 3, ids 1, 2, 3. -/
def rowX1 : Row :=
  { id := 1, user_id := 3, question := "x1", options := ["A) 1"],
    correct_answer := "A", explanation := "e", source := "s",
    times_asked := 0, times_correct := 0, accuracy := 0 }

/-- Second never-attempted question of the three-question pool. -/
def rowX2 : Row := { rowX1 with id := 2, question := "x2" }

/-- Third never-attempted question of the three-question pool. -/
def rowX3 : Row := { rowX1 with id := 3, question := "x3" }

/-- Scratch mcqs for the session-deletion scenarios, ids 0, 1, 2. -/
def mA : Mcq :=
  { id := 0, question := "qa", options := ["A) 1"],
    correct_answer := "A", explanation := "", source := "" }

/-- Second scratch mcq. -/
def mB : Mcq := { mA with id := 1, question := "qb" }

/-- Third scratch mcq. -/
def mC : Mcq := { mA with id := 2, question := "qc" }

/-- A session showing question `mB`: snapshot `[mA, mB, mC]`, index 1. -/
def s3pre : Session :=
  { current_quiz := some [mA, mB, mC], current_question := some 1, score := some 0 }

/-- A never-mastered question: asked once, never correct, accuracy 0. -/
def rowBad : Row := { rowMastered with times_correct := 0, accuracy := 0 }

/-- A prior session used to observe that failed starts leave it intact. -/
def stW : Session :=
  { current_quiz := some [mA], current_question := some 1, score := some 1 }

/-- A one-question session about to show `rowA`'s mcq. -/
def s8 : Session :=
  { current_quiz := some [toMcq rowA], current_question := some 0, score := none }

/-! Section: Statistics invariant (claim C4) -/

lemma statStep_asked (b : Bool) (r : Row) :
    (statStep b r).times_asked = r.times_asked + 1 := by
  cases b <;> simp [statStep]

lemma statStep_correct (b : Bool) (r : Row) :
    (statStep b r).times_correct = r.times_correct + (if b then 1 else 0) := by
  cases b <;> simp [statStep]

lemma statStep_invariant (b : Bool) (r : Row) : statInvariant (statStep b r) := by
  cases b <;> simp [statStep, statInvariant]

lemma replayStats_nil (r : Row) : replayStats r [] = r := rfl

lemma replayStats_cons (r : Row) (b : Bool) (bs : List Bool) :
    replayStats r (b :: bs) = replayStats (statStep b r) bs := rfl

lemma replayStats_asked (bs : List Bool) : ∀ r : Row,
    (replayStats r bs).times_asked = r.times_asked + bs.length := by
  induction bs with
  | nil => intro r; simp [replayStats_nil]
  | cons b bs ih =>
    intro r
    rw [replayStats_cons, ih, statStep_asked]
    simp
    omega

lemma replayStats_correct (bs : List Bool) : ∀ r : Row,
    (replayStats r bs).times_correct = r.times_correct + bs.count true := by
  induction bs with
  | nil => intro r; simp [replayStats_nil]
  | cons b bs ih =>
    intro r
    rw [replayStats_cons, ih, statStep_correct]
    cases b
    all_goals simp [List.count_cons]
    all_goals omega

lemma replayStats_invariant (bs : List Bool) : ∀ r : Row,
    statInvariant r → statInvariant (replayStats r bs) := by
  induction bs with
  | nil => intro r h; simpa [replayStats_nil] using h
  | cons b bs ih =>
    intro r _
    rw [replayStats_cons]
    exact ih _ (statStep_invariant b r)

/-! Section: Helper facts about the weighted selector -/

lemma grq_returns_all (db : List Row) (uid : Nat) (num : Int) (rand : List ℚ)
    (hne : db.filter (fun r => decide (r.user_id = uid)) ≠ [])
    (hle : ((db.filter (fun r => decide (r.user_id = uid))).length : Int) ≤ num) :
    get_random_questions db uid num rand =
      (db.filter (fun r => decide (r.user_id = uid))).map toMcq := by
  unfold get_random_questions
  simp only [List.isEmpty_iff, hne, if_false, List.length_map, List.map_map]
  rw [if_pos hle]
  rfl

/-! Section: C4 -/

/-- C4: every stored question satisfies
`accuracy = times_correct / times_asked` when `times_asked > 0` and
`accuracy = 0` when `times_asked = 0`.  The invariant is established by
`save_question` (accuracy `0.0`, both counters at the schema default `0`)
and preserved unconditionally by every `update_question_stats` recording,
so replaying any interleaving `bs` of `n` correct and `m` incorrect
recordings yields `times_asked = n + m`, `times_correct = n`, and
`accuracy = n / (n + m)` (conventionally `0` when `n + m = 0`). -/
theorem C4_accuracy_invariant (user_id id : Nat) (question correct_answer
    explanation source : String) (options : List String) (bs : List Bool) :
    (save_question_row user_id id question options correct_answer explanation
        source).accuracy = 0 ∧
    (save_question_row user_id id question options correct_answer explanation
        source).times_asked = 0 ∧
    (save_question_row user_id id question options correct_answer explanation
        source).times_correct = 0 ∧
    statInvariant (save_question_row user_id id question options correct_answer
        explanation source) ∧
    (∀ (b : Bool) (r : Row), statInvariant (statStep b r)) ∧
    (replayStats (save_question_row user_id id question options correct_answer
        explanation source) bs).times_asked = bs.length ∧
    (replayStats (save_question_row user_id id question options correct_answer
        explanation source) bs).times_correct = bs.count true ∧
    (replayStats (save_question_row user_id id question options correct_answer
        explanation source) bs).accuracy =
      (if bs.length = 0 then 0 else ((bs.count true : ℚ) / (bs.length : ℚ))) := by
  have h0 : (save_question_row user_id id question options correct_answer
      explanation source).times_asked = 0 := rfl
  have h1 : (save_question_row user_id id question options correct_answer
      explanation source).times_correct = 0 := rfl
  have h2 : (save_question_row user_id id question options correct_answer
      explanation source).accuracy = 0 := rfl
  have hinv : statInvariant (save_question_row user_id id question options
      correct_answer explanation source) := by
    simp [statInvariant, h0, h2]
  have hasked := replayStats_asked bs (save_question_row user_id id question
      options correct_answer explanation source)
  have hcorrect := replayStats_correct bs (save_question_row user_id id question
      options correct_answer explanation source)
  have hreplay := replayStats_invariant bs (save_question_row user_id id question
      options correct_answer explanation source) hinv
  rw [h0] at hasked
  rw [h1] at hcorrect
  refine ⟨h2, h0, h1, hinv, statStep_invariant, by simpa using hasked,
    by simpa using hcorrect, ?_⟩
  rw [statInvariant] at hreplay
  rw [hreplay, hasked, hcorrect]
  simp

/-! Section: C5 -/

/-- C5: `start_quiz` fails with `EmptyBank` exactly when the user's question
count is 0; fails with `InvalidCount` when the requested count is outside
`[1, bank_size]`; fails with `LoadError` when the selector returns zero items
despite a non-zero bank; otherwise initializes the session with index 0 and
score 0 and returns the drawn list.  Requesting exactly the bank size
succeeds and draws the entire bank. -/
theorem C5_start_quiz_spec (db : List Row) (uid : Nat) (num : Int)
    (rand : List ℚ) (st : Session) :
    (get_question_count db uid = 0 →
       start_quiz db uid num rand st = (Except.error StartError.emptyBank, st)) ∧
    (get_question_count db uid ≠ 0 →
       (num < 1 ∨ (get_question_count db uid : Int) < num) →
       start_quiz db uid num rand st = (Except.error StartError.invalidCount, st)) ∧
    (get_question_count db uid ≠ 0 → 1 ≤ num →
       num ≤ (get_question_count db uid : Int) →
       (get_random_questions db uid num rand = [] →
          start_quiz db uid num rand st = (Except.error StartError.loadError, st)) ∧
       (get_random_questions db uid num rand ≠ [] →
          start_quiz db uid num rand st =
            (Except.ok (get_random_questions db uid num rand),
             { current_quiz := some (get_random_questions db uid num rand),
               current_question := some 0, score := some 0 }))) ∧
    (get_question_count db uid ≠ 0 → num = (get_question_count db uid : Int) →
       start_quiz db uid num rand st =
         (Except.ok ((db.filter (fun r => decide (r.user_id = uid))).map toMcq),
          { current_quiz :=
              some ((db.filter (fun r => decide (r.user_id = uid))).map toMcq),
            current_question := some 0, score := some 0 })) := by
  refine ⟨fun h0 => ?_, fun h0 h1 => ?_, fun h0 h1 h2 => ⟨fun h3 => ?_, fun h3 => ?_⟩,
    fun h0 h1 => ?_⟩
  · simp [start_quiz, h0]
  · rw [start_quiz]
    rw [if_neg h0, if_pos]
    rcases h1 with h1 | h1
    · exact Or.inl h1
    · exact Or.inr h1
  · rw [start_quiz, if_neg h0, if_neg (by omega), h3]
    simp
  · rw [start_quiz, if_neg h0, if_neg (by omega)]
    simp only [List.isEmpty_iff, h3, if_false]
  · have hne : db.filter (fun r => decide (r.user_id = uid)) ≠ [] := by
      intro hcon
      apply h0
      rw [get_question_count, hcon]
      rfl
    have hlen : ((db.filter (fun r => decide (r.user_id = uid))).length : Int) ≤ num := by
      rw [h1, get_question_count]
    have hall := grq_returns_all db uid num rand hne hlen
    have hcnt : (1 : Int) ≤ num := by
      rw [h1]
      have : 1 ≤ get_question_count db uid := Nat.one_le_iff_ne_zero.mpr h0
      exact_mod_cast this
    rw [start_quiz, if_neg h0, if_neg (by omega)]
    simp only [hall, List.isEmpty_iff]
    rw [if_neg (by simpa using hne)]

/-! Section: C10 -/

/-- C10: a failed `start_quiz` (any of the three errors) returns before
writing any session key, leaving the previous session exactly as it was;
only a successful start overwrites it. -/
theorem C10_failed_start_preserves_session (db : List Row) (uid : Nat)
    (num : Int) (rand : List ℚ) (st : Session) (e : StartError)
    (h : (start_quiz db uid num rand st).1 = Except.error e) :
    (start_quiz db uid num rand st).2 = st := by
  rw [start_quiz] at h ⊢
  by_cases h0 : get_question_count db uid = 0
  · rw [if_pos h0]
  · rw [if_neg h0] at h ⊢
    by_cases h1 : num < 1 ∨ (get_question_count db uid : Int) < num
    · rw [if_pos h1]
    · rw [if_neg h1] at h ⊢
      by_cases h2 : (get_random_questions db uid num rand).isEmpty = true
      · rw [if_pos h2]
      · rw [if_neg h2] at h
        simp at h

/-! Section: C7 -/

lemma getD_map_of_lt {α β : Type} (l : List α) (g : α → β) (i : Nat)
    (h : i < l.length) (d : α) (d' : β) :
    (l.map g).getD i d' = g (l.getD i d) := by
  rw [List.getD_eq_getElem?_getD, List.getD_eq_getElem?_getD, List.getElem?_map,
    List.getElem?_eq_getElem h]
  rfl

/-- C7: `update_question` returns `false` and changes nothing when the id
does not exist or is not owned by the caller; on success it returns `true`,
rewrites only the matching rows, overwrites exactly the supplied fields,
and always resets `times_asked`, `times_correct` and `accuracy` to zero in
the same write.  `delete_question` likewise returns `false` leaving the
table unchanged when the question is not owned or not found, and otherwise
removes exactly the matching rows. -/
theorem C7_update_delete_ownership (db : List Row) (qid uid : Nat)
    (question : Option String) (options : Option (List String))
    (correct_answer : Option String) (explanation : Option String) :
    (db.any (fun r => decide (r.id = qid) && decide (r.user_id = uid)) = false →
       update_question db qid uid question options correct_answer explanation =
         (false, db) ∧
       delete_question db qid uid = (false, db)) ∧
    (db.any (fun r => decide (r.id = qid) && decide (r.user_id = uid)) = true →
       (update_question db qid uid question options correct_answer explanation).1
           = true ∧
       (update_question db qid uid question options correct_answer
           explanation).2.length = db.length ∧
       (∀ i, i < db.length →
         (¬ ((db.getD i default).id = qid ∧ (db.getD i default).user_id = uid) →
            (update_question db qid uid question options correct_answer
              explanation).2.getD i default = db.getD i default) ∧
         ((db.getD i default).id = qid ∧ (db.getD i default).user_id = uid →
            updatedRow question options correct_answer explanation
              (db.getD i default)
              ((update_question db qid uid question options correct_answer
                explanation).2.getD i default))) ∧
       (delete_question db qid uid).1 = true ∧
       (delete_question db qid uid).2 =
         db.filter (fun r => ¬ (r.id = qid ∧ r.user_id = uid))) := by
  constructor
  · intro h
    have hc : ¬ (db.any (fun r => decide (r.id = qid) && decide (r.user_id = uid))
        = true) := by simp [h]
    exact ⟨by rw [update_question, if_pos hc], by rw [delete_question, if_pos hc]⟩
  · intro h
    have hc : ¬ ¬ (db.any (fun r => decide (r.id = qid) && decide (r.user_id = uid))
        = true) := by simp [h]
    have hup : update_question db qid uid question options correct_answer
        explanation =
        (true, db.map (fun r =>
          if r.id = qid ∧ r.user_id = uid then
            { r with
              question := question.getD r.question,
              options := options.getD r.options,
              correct_answer := correct_answer.getD r.correct_answer,
              explanation := explanation.getD r.explanation,
              accuracy := 0, times_asked := 0, times_correct := 0 }
          else r)) := by
      rw [update_question, if_neg hc]
    have hdel : delete_question db qid uid =
        (true, db.filter (fun r => ¬ (r.id = qid ∧ r.user_id = uid))) := by
      rw [delete_question, if_neg hc]
    refine ⟨by rw [hup], by rw [hup]; simp, fun i hi => ⟨fun hno => ?_, fun hyes => ?_⟩,
      by rw [hdel], by rw [hdel]⟩
    · rw [hup]
      simp only
      rw [getD_map_of_lt db _ i hi default, if_neg hno]
    · rw [hup, updatedRow]
      simp only
      rw [getD_map_of_lt db _ i hi default, if_pos hyes]

/-! Section: C8 -/

lemma statStep_accuracy (b : Bool) (r : Row) :
    (statStep b r).accuracy =
      ((statStep b r).times_correct : ℚ) / ((statStep b r).times_asked : ℚ) := by
  cases b <;> simp [statStep]

lemma statStep_id (b : Bool) (r : Row) : (statStep b r).id = r.id := by
  cases b <;> simp [statStep]

lemma statStep_frame (b : Bool) (r : Row) :
    (statStep b r).user_id = r.user_id ∧ (statStep b r).question = r.question ∧
    (statStep b r).options = r.options ∧
    (statStep b r).correct_answer = r.correct_answer ∧
    (statStep b r).explanation = r.explanation ∧
    (statStep b r).source = r.source := by
  cases b <;> simp [statStep]

/-- C8: `process_answer` never changes the current question index or the
snapshot (advancing happens only through `next_question`, which
unconditionally increments the index by one); it judges correctness by
case-sensitive `==` on the single-letter label, always appends the attempt
to quiz history and increments `times_asked` of every bank row carrying the
question's id, increments `times_correct` and recomputes
`accuracy = times_correct / times_asked` on those same rows (the correct
counter only on a match), leaves all other rows and all non-statistics
fields untouched, bumps the running score exactly when the answer matches,
and returns the correctness verdict, the correct label and the
explanation. -/
theorem C8_process_answer_frame (bank : List Row) (history : List QuizResult)
    (uid : Nat) (ans : String) (st : Session) :
    (process_answer bank history uid ans st).session.current_question =
        st.current_question ∧
    (process_answer bank history uid ans st).session.current_quiz =
        st.current_quiz ∧
    (get_current_question st = none →
       process_answer bank history uid ans st =
         { result := none, session := st, bank := bank, history := history }) ∧
    (∀ mcq, get_current_question st = some mcq →
       (process_answer bank history uid ans st).result =
         some { is_correct := ans == mcq.correct_answer,
                correct_answer := mcq.correct_answer,
                explanation := mcq.explanation } ∧
       (process_answer bank history uid ans st).history =
         history ++ [{ user_id := uid, question_id := mcq.id, user_answer := ans,
                       is_correct := ans == mcq.correct_answer }] ∧
       (process_answer bank history uid ans st).bank.length = bank.length ∧
       (∀ i, i < bank.length →
         ((bank.getD i default).id ≠ mcq.id →
            (process_answer bank history uid ans st).bank.getD i default =
              bank.getD i default) ∧
         ((bank.getD i default).id = mcq.id →
            ((process_answer bank history uid ans st).bank.getD i default).times_asked
                = (bank.getD i default).times_asked + 1 ∧
            ((process_answer bank history uid ans st).bank.getD i default).times_correct
                = (bank.getD i default).times_correct +
                    (if ans == mcq.correct_answer then 1 else 0) ∧
            ((process_answer bank history uid ans st).bank.getD i default).accuracy =
              (((process_answer bank history uid ans st).bank.getD i
                  default).times_correct : ℚ) /
              (((process_answer bank history uid ans st).bank.getD i
                  default).times_asked : ℚ) ∧
            ((process_answer bank history uid ans st).bank.getD i default).question =
              (bank.getD i default).question ∧
            ((process_answer bank history uid ans st).bank.getD i default).options =
              (bank.getD i default).options ∧
            ((process_answer bank history uid ans st).bank.getD i
                default).correct_answer = (bank.getD i default).correct_answer ∧
            ((process_answer bank history uid ans st).bank.getD i
                default).explanation = (bank.getD i default).explanation)) ∧
       ((ans == mcq.correct_answer) = true →
          (process_answer bank history uid ans st).session.score =
            some (st.scoreD + 1)) ∧
       ((ans == mcq.correct_answer) = false →
          (process_answer bank history uid ans st).session.score = st.score)) ∧
    (next_question st).current_question = some (st.idxD + 1) ∧
    (next_question st).current_quiz = st.current_quiz ∧
    (next_question st).score = st.score := by
  refine ⟨?_, ?_, ?_, ?_, rfl, rfl, rfl⟩
  · rcases hq : get_current_question st with _ | mcq
    · simp [process_answer, hq]
    · simp only [process_answer, hq]
      cases hb : (ans == mcq.correct_answer) <;> simp [hb]
  · rcases hq : get_current_question st with _ | mcq
    · simp [process_answer, hq]
    · simp only [process_answer, hq]
      cases hb : (ans == mcq.correct_answer) <;> simp [hb]
  · intro h
    simp [process_answer, h]
  · intro mcq h
    have h1 : (process_answer bank history uid ans st).result =
        some { is_correct := ans == mcq.correct_answer,
               correct_answer := mcq.correct_answer,
               explanation := mcq.explanation } := by
      simp [process_answer, h]
    have h2 : (process_answer bank history uid ans st).history =
        history ++ [{ user_id := uid, question_id := mcq.id, user_answer := ans,
                      is_correct := ans == mcq.correct_answer }] := by
      simp [process_answer, h]
    have h3 : (process_answer bank history uid ans st).bank =
        update_question_stats bank mcq.id (ans == mcq.correct_answer) := by
      simp [process_answer, h]
    refine ⟨h1, h2, by rw [h3]; simp [update_question_stats],
      fun i hi => ⟨fun hne => ?_, fun heq => ?_⟩, fun hb => ?_, fun hb => ?_⟩
    · rw [h3, update_question_stats, getD_map_of_lt bank _ i hi default, if_neg hne]
    · have hrw : (process_answer bank history uid ans st).bank.getD i default =
          statStep (ans == mcq.correct_answer) (bank.getD i default) := by
        rw [h3, update_question_stats, getD_map_of_lt bank _ i hi default,
          if_pos heq]
      rw [hrw]
      obtain ⟨-, hq2, hq3, hq4, hq5, -⟩ := statStep_frame (ans == mcq.correct_answer)
        (bank.getD i default)
      refine ⟨statStep_asked _ _, ?_, statStep_accuracy _ _, hq2, hq3, hq4, hq5⟩
      rw [statStep_correct]
    · have h4 : (process_answer bank history uid ans st).session =
          { st with score := some (st.scoreD + 1) } := by
        simp [process_answer, h, hb]
      rw [h4]
    · have h4 : (process_answer bank history uid ans st).session = st := by
        simp [process_answer, h, hb]
      rw [h4]

/-! Section: C9 -/

/-- C9: the session summary returns `score`, `total` = snapshot length and
`percentage = score/total*100` (`0` when the total is `0`); the session
progress returns `score`, `answered` = current index, `total`, and
`percentage = score/answered*100` (`0` when nothing was answered).  For the
concrete two-question run `demoS3` with exactly one correct answer and both
questions advanced past, the summary is score 1, total 2, percentage 50. -/
theorem C9_summary_progress (st : Session) :
    (get_quiz_summary st).score = st.scoreD ∧
    (get_quiz_summary st).total = st.quizD.length ∧
    (st.quizD.length = 0 → (get_quiz_summary st).percentage = 0) ∧
    (st.quizD.length ≠ 0 →
       (get_quiz_summary st).percentage =
         (st.scoreD : ℚ) / (st.quizD.length : ℚ) * 100) ∧
    (get_quiz_progress st).score = st.scoreD ∧
    (get_quiz_progress st).answered = st.idxD ∧
    (get_quiz_progress st).total = st.quizD.length ∧
    (st.idxD = 0 → (get_quiz_progress st).percentage = 0) ∧
    (st.idxD ≠ 0 →
       (get_quiz_progress st).percentage =
         (st.scoreD : ℚ) / (st.idxD : ℚ) * 100) ∧
    get_quiz_summary demoS3 = { score := 1, total := 2, percentage := 50 } := by
  refine ⟨rfl, rfl, fun h => ?_, fun h => ?_, rfl, rfl, rfl, fun h => ?_, fun h => ?_, ?_⟩
  · simp [get_quiz_summary, h]
  · simp [get_quiz_summary, Nat.pos_of_ne_zero h]
  · simp [get_quiz_progress, h]
  · simp [get_quiz_progress, Nat.pos_of_ne_zero h]
  · have hs3 : demoS3 =
        { current_quiz := some [toMcq rowA, toMcq rowB],
          current_question := some 2, score := some 1 } := rfl
    rw [hs3, get_quiz_summary]
    simp [Session.quizD, Session.scoreD]
    norm_num

/-! Section: C6 -/

lemma accumulate_length (ws : List ℚ) : ∀ acc, (accumulate ws acc).length = ws.length := by
  induction ws with
  | nil => intro acc; rfl
  | cons w ws ih => intro acc; simp [accumulate, ih]

lemma getD_mem_of_lt {α : Type} (l : List α) (i : Nat) (h : i < l.length) (d : α) :
    l.getD i d ∈ l := by
  rw [List.getD_eq_getElem?_getD, List.getElem?_eq_getElem h]
  exact List.getElem_mem h

lemma chooseIndex_lt (cum : List ℚ) (x : ℚ) (h : cum ≠ []) :
    chooseIndex cum x < cum.length := by
  have h1 : (cum.take (cum.length - 1)).countP (fun c => decide (c ≤ x)) ≤
      (cum.take (cum.length - 1)).length := List.countP_le_length _
  have h2 : (cum.take (cum.length - 1)).length ≤ cum.length - 1 := by
    simp [List.length_take]
  have h3 : 0 < cum.length := List.length_pos.mpr h
  rw [chooseIndex]
  omega

/-- Each sample drawn by the embedded `random.choices` is a member of the
population. -/
lemma choicesW_mem (pop : List (Mcq × ℚ)) (rand : List ℚ) (k : Nat)
    (hpop : pop ≠ []) : ∀ q ∈ choicesW pop rand k, q ∈ pop := by
  intro q hq
  rw [choicesW] at hq
  obtain ⟨i, -, hiq⟩ := List.mem_map.mp hq
  rw [← hiq]
  apply getD_mem_of_lt
  have hcum : accumulate (pop.map (fun q => q.2)) 0 ≠ [] := by
    intro hcon
    have hl := accumulate_length (pop.map (fun q => q.2)) 0
    rw [hcon] at hl
    simp at hl
    exact hpop (List.length_eq_zero.mp hl.symm)
  have hlt := chooseIndex_lt (accumulate (pop.map (fun q => q.2)) 0)
    ((rand.getD i 0) * (accumulate (pop.map (fun q => q.2)) 0).getLastD 0) hcum
  have hl := accumulate_length (pop.map (fun q => q.2)) 0
  rw [hl] at hlt
  simpa using hlt

/-- Every mcq returned by the weighted selector is the unchanged image of a
bank row owned by the requesting user. -/
lemma grq_mem (db : List Row) (uid : Nat) (num : Int) (rand : List ℚ) :
    ∀ m ∈ get_random_questions db uid num rand,
      ∃ rq, rq ∈ db ∧ rq.user_id = uid ∧ m = toMcq rq := by
  intro m hm
  rw [get_random_questions] at hm
  by_cases h1 : (db.filter (fun r => decide (r.user_id = uid))).isEmpty
  · rw [if_pos h1] at hm
    simp at hm
  · rw [if_neg h1] at hm
    have hpool : ∀ q ∈ (db.filter (fun r => decide (r.user_id = uid))).map
        rowToWeighted, ∃ rq, rq ∈ db ∧ rq.user_id = uid ∧ q.1 = toMcq rq := by
      intro q hq
      obtain ⟨rq, hrq, hrweq⟩ := List.mem_map.mp hq
      obtain ⟨hmem, huid⟩ := List.mem_filter.mp hrq
      exact ⟨rq, hmem, by simpa using huid, by rw [← hrweq]; rfl⟩
    by_cases h2 : (((db.filter (fun r => decide (r.user_id = uid))).map
        rowToWeighted).length : Int) ≤ num
    · rw [if_pos h2] at hm
      obtain ⟨q, hq, hqm⟩ := List.mem_map.mp hm
      obtain ⟨rq, hmem, huid, heq⟩ := hpool q hq
      exact ⟨rq, hmem, huid, by rw [← hqm, heq]⟩
    · rw [if_neg h2] at hm
      obtain ⟨q, hq, hqm⟩ := List.mem_map.mp hm
      have hplen : (db.filter (fun r => decide (r.user_id = uid))).map rowToWeighted
          ≠ [] := by
        intro hcon
        rw [List.map_eq_nil_iff] at hcon
        rw [hcon] at h1
        exact h1 rfl
      have hq2 := choicesW_mem _ rand _ hplen q hq
      obtain ⟨rq, hmem, huid, heq⟩ := hpool q hq2
      exact ⟨rq, hmem, huid, by rw [← hqm, heq]⟩

/-- C6 counterexample: for a question with `times_asked = 1` and
`accuracy = 1` (reachable after a single correct answer) the computed weight
is exactly `0.2`, which does **not** lie in the claimed open-bottom interval
`(0.2, 1.2]`. -/
theorem C6_counterexample :
    weight rowMastered = (0.2 : ℚ) ∧ ¬ ((0.2 : ℚ) < weight rowMastered) := by
  constructor <;> norm_num [weight, rowMastered]

/-- C6 (amended): the selection weight is exactly `0.6` when
`times_asked = 0` and `1.0 - accuracy + 0.2` otherwise, lying in the
**closed** interval `[0.2, 1.2]` whenever `accuracy ∈ [0, 1]` (the bottom
end `0.2` is attained at `accuracy = 1`, and the weight is strictly above
`0.2` whenever `accuracy < 1`); for two questions with equal positive
`times_asked`, lower accuracy gives a higher-or-equal weight; and weighting
does not alter stored question state: the weighted entry carries the
unchanged row fields, and every selected mcq is the unchanged image of an
owned bank row. -/
theorem C6_weight_formula (r : Row) (db : List Row) (uid : Nat) (num : Int)
    (rand : List ℚ) :
    (r.times_asked = 0 → weight r = (0.6 : ℚ)) ∧
    (r.times_asked ≠ 0 → weight r = 1 - r.accuracy + (0.2 : ℚ)) ∧
    (0 ≤ r.accuracy → r.accuracy ≤ 1 →
       (0.2 : ℚ) ≤ weight r ∧ weight r ≤ (1.2 : ℚ)) ∧
    (r.times_asked ≠ 0 → r.accuracy < 1 → (0.2 : ℚ) < weight r) ∧
    (∀ r2 : Row, r.times_asked = r2.times_asked → 0 < r.times_asked →
       r2.accuracy ≤ r.accuracy → weight r ≤ weight r2) ∧
    rowToWeighted r = (toMcq r, weight r) ∧
    (∀ m ∈ get_random_questions db uid num rand,
       ∃ rq, rq ∈ db ∧ rq.user_id = uid ∧ m = toMcq rq) := by
  refine ⟨fun h => by simp [weight, h], fun h => by simp [weight, h], fun h0 h1 => ?_,
    fun h hlt => ?_, fun r2 he hpos hacc => ?_, rfl, grq_mem db uid num rand⟩
  · rw [weight]
    split_ifs <;> constructor <;> norm_num <;> linarith
  · rw [weight, if_neg h]
    norm_num
    linarith
  · rw [weight, weight, if_neg (by omega), if_neg (by omega)]
    linarith

/-! Section: C1 -/

/-- C1 (code bug): with a pool of 3 questions and a request for 2, the
selector draws through `random.choices`, which samples **with**
replacement, although the function's own comment announces "Weighted random
selection without replacement".  With the random stream `[0, 0]` both draws
land in the first cumulative-weight segment: the returned list is question
id 1 twice — the correct length `min(k, n) = 2`, but not pairwise
distinct. -/
theorem C1_duplicate_draw :
    (get_random_questions [rowX1, rowX2, rowX3] 3 2 [0, 0]).map Mcq.id = [1, 1] ∧
    ¬ ((get_random_questions [rowX1, rowX2, rowX3] 3 2 [0, 0]).map Mcq.id).Nodup ∧
    (get_random_questions [rowX1, rowX2, rowX3] 3 2 [0, 0]).length = 2 := by
  have hrange : List.range ((2 : Int).toNat) = [0, 1] := rfl
  have h : (get_random_questions [rowX1, rowX2, rowX3] 3 2 [0, 0]).map Mcq.id
      = [1, 1] := by
    norm_num [get_random_questions, choicesW, chooseIndex, accumulate,
      rowToWeighted, weight, toMcq, rowX1, rowX2, rowX3, hrange,
      List.countP_cons, List.countP_nil]
  refine ⟨h, by rw [h]; decide, ?_⟩
  have := congrArg List.length h
  simpa using this

/-! Section: C3 -/

lemma removedIndex_lt (qid : Nat) : ∀ (l : List Mcq) (i : Nat),
    removedIndex qid l = some i → i < l.length := by
  intro l
  induction l with
  | nil => intro i h; exact absurd h (by simp [removedIndex])
  | cons q qs ih =>
    intro i h
    rw [removedIndex] at h
    split_ifs at h with hq
    · cases h
      simp
    · rcases hrec : removedIndex qid qs with _ | j
      · rw [hrec] at h
        cases h
      · rw [hrec] at h
        cases h
        simpa using Nat.succ_lt_succ (ih j hrec)

lemma eraseIdx_drop_of_lt {α : Type} (l : List α) (p c : Nat) (hp : p < c)
    (hpl : p < l.length) : (l.eraseIdx p).drop (c - 1) = l.drop c := by
  rw [List.eraseIdx_eq_take_drop_succ, List.drop_append_eq_append_drop]
  have h1 : (l.take p).drop (c - 1) = [] := by
    apply List.drop_eq_nil_of_le
    simp [List.length_take]
    omega
  rw [h1, List.drop_drop]
  have h2 : (l.take p).length = p := by
    simp [List.length_take]
    omega
  rw [h2]
  have h3 : p + 1 + (c - 1 - p) = c := by omega
  rw [h3]
  rfl

/-- C3 counterexample: deleting the question at the current session index
(“id 1 = `mB`, at index 1”) decrements the index (`1 ≤ 1` and `1 > 0`), so
the session re-points to `mA` — the question shown *before* the deleted one
— instead of `mC`.  The question shown next changes and an already-shown
question is repeated, contradicting the claimed no-skip/no-repeat
consequence. -/
theorem C3_counterexample :
    delete_from_session s3pre 1 =
      { current_quiz := some [mA, mC], current_question := some 0,
        score := some 0 } ∧
    get_current_question s3pre = some mB ∧
    get_current_question (delete_from_session s3pre 1) = some mA ∧
    (delete_from_session s3pre 1).quizD.drop (delete_from_session s3pre 1).idxD ≠
      (s3pre.quizD.drop s3pre.idxD).filter (fun q => q.id ≠ 1) := by
  refine ⟨rfl, rfl, rfl, by decide⟩

/-- C3 (amended): when a question is deleted during an active session it is
removed from the snapshot by first id match, and the index is decremented by
exactly one iff the removed position was at or before the current index and
the index is positive; consequently, when the deleted question sat
**strictly before** the current index — the normal flow, since the edit
menu is offered only after the index has advanced past the answered
question — the tail of questions still to be shown is preserved exactly (no
question is skipped and none is repeated).  Deleting the entry exactly at a
positive current index instead re-points the session one step back (see the
counterexample). -/
theorem C3_session_delete (st : Session) (qid : Nat) :
    (removedIndex qid st.quizD = none → delete_from_session st qid = st) ∧
    (∀ i, removedIndex qid st.quizD = some i →
       (delete_from_session st qid).quizD = st.quizD.eraseIdx i ∧
       (delete_from_session st qid).score = st.score ∧
       (delete_from_session st qid).current_question =
         (if i ≤ st.idxD ∧ 0 < st.idxD then some (st.idxD - 1)
          else st.current_question) ∧
       (i < st.idxD →
          (delete_from_session st qid).quizD.drop (delete_from_session st qid).idxD
            = st.quizD.drop st.idxD)) := by
  constructor
  · intro h
    rw [delete_from_session]
    simp only [h]
  · intro i h
    have hquiz : st.current_quiz ≠ none := by
      intro hcon
      rw [Session.quizD, hcon] at h
      simp [removedIndex] at h
    obtain ⟨quiz, hsome⟩ := Option.ne_none_iff_exists'.mp hquiz
    have hdel : delete_from_session st qid =
        (if i ≤ st.idxD ∧ 0 < st.idxD then
          { current_quiz := some (st.quizD.eraseIdx i),
            current_question := some (st.idxD - 1), score := st.score }
        else
          { current_quiz := some (st.quizD.eraseIdx i),
            current_question := st.current_question, score := st.score }) := by
      rw [delete_from_session]
      simp only [h]
      split_ifs with hc
      · simp [hsome, Session.quizD]
      · simp [hsome, Session.quizD]
    split_ifs at hdel with hc
    · refine ⟨by rw [hdel]; rfl, by rw [hdel], ?_, fun hlt => ?_⟩
      · rw [hdel, if_pos hc]
      · rw [hdel]
        show (st.quizD.eraseIdx i).drop (Session.idxD _) = _
        have hidx : Session.idxD
            { current_quiz := some (st.quizD.eraseIdx i),
              current_question := some (st.idxD - 1), score := st.score } =
            st.idxD - 1 := rfl
        rw [hidx]
        exact eraseIdx_drop_of_lt st.quizD i st.idxD hlt
          (removedIndex_lt qid st.quizD i h)
    · refine ⟨by rw [hdel]; rfl, by rw [hdel], ?_, fun hlt => ?_⟩
      · rw [hdel, if_neg hc]
      · exact absurd ⟨by omega, by omega⟩ hc

/-! Section: C2: helper lemmas about stripping and the regex embedding -/

lemma getLastD_of_ne_nil {α : Type} (l : List α) (h : l ≠ []) (d d' : α) :
    l.getLastD d = l.getLastD d' := by
  rw [List.getLastD_eq_getLast?, List.getLastD_eq_getLast?]
  obtain ⟨x, hx⟩ := Option.isSome_iff_exists.mp (List.getLast?_isSome.mpr h)
  rw [hx]
  rfl

lemma getLastD_cons_ne {α : Type} (a d : α) (l : List α) (h : l ≠ []) :
    (a :: l).getLastD d = l.getLastD d := by
  rw [List.getLastD_cons]
  exact getLastD_of_ne_nil l h a d

lemma getLastD_mem {α : Type} : ∀ (l : List α), l ≠ [] → ∀ d, l.getLastD d ∈ l := by
  intro l
  induction l with
  | nil => intro h; exact absurd rfl h
  | cons a l ih =>
    intro _ d
    by_cases hl : l = []
    · subst hl
      simp [List.getLastD_cons]
    · rw [getLastD_cons_ne a d l hl]
      exact List.mem_cons_of_mem a (ih hl d)

lemma dropWhile_head_not {α : Type} (p : α → Bool) (d : α) : ∀ (l : List α),
    l.dropWhile p ≠ [] → p ((l.dropWhile p).headD d) = false := by
  intro l
  induction l with
  | nil => intro h; exact absurd rfl h
  | cons a l ih =>
    intro h
    rw [List.dropWhile_cons] at h ⊢
    by_cases hp : p a = true
    · rw [if_pos hp] at h ⊢
      exact ih h
    · rw [if_neg hp]
      simpa using hp

lemma dropWhile_ne_nil_of_last (p : Char → Bool) : ∀ (l : List Char), l ≠ [] →
    p (l.getLastD ' ') = false → l.dropWhile p ≠ [] := by
  intro l
  induction l with
  | nil => intro h; exact absurd rfl h
  | cons a l ih =>
    intro _ hlast
    rw [List.dropWhile_cons]
    by_cases hp : p a = true
    · rw [if_pos hp]
      by_cases hl : l = []
      · subst hl
        simp [List.getLastD_cons] at hlast
        rw [hlast] at hp
        cases hp
      · rw [getLastD_cons_ne a ' ' l hl] at hlast
        exact ih hl hlast
    · rw [if_neg hp]
      simp

lemma dropWhile_getLastD (p : Char → Bool) : ∀ (l : List Char),
    l.dropWhile p ≠ [] → (l.dropWhile p).getLastD ' ' = l.getLastD ' ' := by
  intro l
  induction l with
  | nil => intro h; exact absurd rfl h
  | cons a l ih =>
    intro h
    rw [List.dropWhile_cons] at h ⊢
    by_cases hp : p a = true
    · rw [if_pos hp] at h ⊢
      have hl : l ≠ [] := by
        intro hc
        subst hc
        exact h rfl
      rw [ih h, getLastD_cons_ne a ' ' l hl]
    · rw [if_neg hp]

lemma dropTrailWS_eq_nil_or_last : ∀ cs : List Char,
    dropTrailWS cs = [] ∨ isWS ((dropTrailWS cs).getLastD ' ') = false := by
  intro cs
  induction cs with
  | nil => left; rfl
  | cons c cs ih =>
    rw [dropTrailWS]
    by_cases hr : (dropTrailWS cs).isEmpty = true
    · rw [if_pos hr]
      by_cases hws : isWS c = true
      · rw [if_pos hws]
        left
        rfl
      · rw [if_neg hws]
        right
        simpa [List.getLastD_cons] using hws
    · rw [if_neg hr]
      right
      have hne : dropTrailWS cs ≠ [] := by
        intro hc
        rw [hc] at hr
        exact hr rfl
      rw [getLastD_cons_ne c ' ' _ hne]
      rcases ih with h | h
      · exact absurd h hne
      · exact h

lemma dropTrailWS_head (d : Char) : ∀ (cs : List Char),
    dropTrailWS cs ≠ [] → (dropTrailWS cs).headD d = cs.headD d := by
  intro cs
  cases cs with
  | nil => intro h; exact absurd rfl h
  | cons c cs =>
    intro h
    rw [dropTrailWS] at h ⊢
    by_cases hr : (dropTrailWS cs).isEmpty = true
    · rw [if_pos hr] at h ⊢
      by_cases hws : isWS c = true
      · rw [if_pos hws] at h
        exact absurd rfl h
      · rw [if_neg hws]
        rfl
    · rw [if_neg hr]
      rfl

lemma dropTrailWS_ne_nil_of_last : ∀ cs : List Char, cs ≠ [] →
    isWS (cs.getLastD ' ') = false → dropTrailWS cs ≠ [] := by
  intro cs
  induction cs with
  | nil => intro h; exact absurd rfl h
  | cons c cs ih =>
    intro _ hlast
    rw [dropTrailWS]
    by_cases hc : cs = []
    · subst hc
      simp [List.getLastD_cons] at hlast
      simp [List.isEmpty, dropTrailWS, hlast]
    · rw [getLastD_cons_ne c ' ' cs hc] at hlast
      have hne := ih hc hlast
      have hr : (dropTrailWS cs).isEmpty = false := by
        rcases hcs : dropTrailWS cs with _ | _
        · exact absurd hcs hne
        · rfl
      rw [hr]
      simp

lemma pyStripList_head (x : List Char) (h : pyStripList x ≠ []) :
    isWS ((pyStripList x).headD ' ') = false := by
  have hdw : x.dropWhile isWS ≠ [] := by
    intro hc
    rw [pyStripList, hc] at h
    exact h rfl
  rw [pyStripList] at h ⊢
  rw [dropTrailWS_head ' ' _ h]
  exact dropWhile_head_not isWS ' ' x hdw

lemma pyStripList_last (x : List Char) (h : pyStripList x ≠ []) :
    isWS ((pyStripList x).getLastD ' ') = false := by
  rcases dropTrailWS_eq_nil_or_last (x.dropWhile isWS) with h1 | h1
  · rw [pyStripList] at h
    exact absurd h1 h
  · rw [pyStripList]
    exact h1

lemma pyStripList_ne_nil_of_last (x : List Char) (hne : x ≠ [])
    (hlast : isWS (x.getLastD ' ') = false) : pyStripList x ≠ [] := by
  rw [pyStripList]
  have hdw := dropWhile_ne_nil_of_last isWS x hne hlast
  apply dropTrailWS_ne_nil_of_last _ hdw
  rw [dropWhile_getLastD isWS x hdw]
  exact hlast

lemma optionLines_stripped (t : List Char) : ∀ l ∈ optionLines t,
    l ≠ [] ∧ isWS (l.headD ' ') = false ∧ isWS (l.getLastD ' ') = false := by
  intro l hl
  rw [optionLines] at hl
  obtain ⟨hl2, hne⟩ := List.mem_filter.mp hl
  obtain ⟨x, -, hx⟩ := List.mem_map.mp hl2
  have hnn : l ≠ [] := by
    intro hc
    rw [hc] at hne
    simp at hne
  subst hx
  exact ⟨hnn, pyStripList_head x hnn, pyStripList_last x hnn⟩

lemma matchTail_nil : matchTail [] = none := rfl

lemma matchTail_ne_nil (cs : List Char) (g2 : List Char)
    (h : matchTail cs = some g2) : cs ≠ [] := by
  intro hc
  rw [hc, matchTail_nil] at h
  cases h

lemma matchTail_some (cs : List Char) (hne : cs ≠ [])
    (hlast : isWS (cs.getLastD ' ') = false) :
    ∃ g2, matchTail cs = some g2 ∧ g2 ≠ [] ∧ isWS (g2.getLastD ' ') = false := by
  have hdw : cs.dropWhile isWS ≠ [] := dropWhile_ne_nil_of_last isWS cs hne hlast
  have hdwlast : (cs.dropWhile isWS).getLastD ' ' = cs.getLastD ' ' :=
    dropWhile_getLastD isWS cs hdw
  have hdwhead := dropWhile_head_not isWS ' ' cs hdw
  rw [matchTail]
  rcases hsplit : cs.dropWhile isWS with _ | ⟨s, cs2⟩
  · exact absurd hsplit hdw
  · rw [hsplit] at hdwlast hdwhead
    simp only
    have hs_nws : isWS s = false := by simpa using hdwhead
    by_cases hsep : isSep s = true
    · rw [if_pos hsep]
      by_cases hc2 : cs2 = []
      · subst hc2
        refine ⟨[s], by simp [List.dropWhile, List.isEmpty], by simp, ?_⟩
        simpa [List.getLastD_cons] using hs_nws
      · have hlast2 : isWS (cs2.getLastD ' ') = false := by
          rw [getLastD_cons_ne s ' ' cs2 hc2] at hdwlast
          rw [hdwlast]
          exact hlast
        have hdw2 : cs2.dropWhile isWS ≠ [] :=
          dropWhile_ne_nil_of_last isWS cs2 hc2 hlast2
        rcases hsplit2 : cs2.dropWhile isWS with _ | ⟨a, t⟩
        · exact absurd hsplit2 hdw2
        · refine ⟨a :: t, rfl, by simp, ?_⟩
          rw [← hsplit2, dropWhile_getLastD isWS cs2 hdw2]
          exact hlast2
    · rw [if_neg hsep]
      refine ⟨s :: cs2, rfl, by simp, ?_⟩
      rw [hdwlast]
      exact hlast

lemma matchOptionLine_accepted (l : List Char) (hne : l ≠ [])
    (hhead : isWS (l.headD ' ') = false) (hlast : isWS (l.getLastD ' ') = false) :
    (lineAccepted l →
       ∃ g2, matchOptionLine l = some (l.headD ' ', g2) ∧ pyStripList g2 ≠ []) ∧
    (∀ c g2, matchOptionLine l = some (c, g2) → c = l.headD ' ' ∧ lineAccepted l) ∧
    (¬ lineAccepted l → matchOptionLine l = none) := by
  rcases l with _ | ⟨a, t⟩
  · exact absurd rfl hne
  · have hheada : isWS a = false := by simpa using hhead
    have hdw : (a :: t).dropWhile isWS = a :: t := by
      rw [List.dropWhile_cons, if_neg (by simp [hheada])]
    constructor
    · rintro ⟨hlab, hlen⟩
      have ht : t ≠ [] := by
        intro hc
        subst hc
        simp at hlen
      have htlast : isWS (t.getLastD ' ') = false := by
        rw [getLastD_cons_ne a ' ' t ht] at hlast
        exact hlast
      obtain ⟨g2, hg2, hg2ne, hg2last⟩ := matchTail_some t ht htlast
      rw [matchOptionLine, hdw]
      simp only
      rw [if_pos (by simpa using hlab), hg2]
      exact ⟨g2, rfl, pyStripList_ne_nil_of_last g2 hg2ne hg2last⟩
    constructor
    · intro c g2 h
      rw [matchOptionLine, hdw] at h
      simp only at h
      by_cases hlab : isLabelChar a = true
      · rw [if_pos hlab] at h
        rcases hmt : matchTail t with _ | g2'
        · rw [hmt] at h
          cases h
        · rw [hmt] at h
          simp at h
          refine ⟨by simp [← h.1], by simpa using hlab, ?_⟩
          have ht := matchTail_ne_nil t g2' hmt
          rcases t with _ | _
          · exact absurd rfl ht
          · simp
      · rw [if_neg hlab] at h
        cases h
    · intro hna
      rw [matchOptionLine, hdw]
      simp only
      by_cases hlab : isLabelChar a = true
      · rw [if_pos hlab]
        have ht : t = [] := by
          by_contra ht
          apply hna
          refine ⟨by simpa using hlab, ?_⟩
          rcases t with _ | _
          · exact absurd rfl ht
          · simp
        subst ht
        rw [matchTail_nil]
        rfl
      · rw [if_neg hlab]

lemma labelChar_toUpper (c : Char) (h : isLabelChar c = true) :
    c.toUpper ∈ expectedLabels := by
  rw [isLabelChar] at h
  simp [List.contains] at h
  rcases h with rfl | rfl | rfl | rfl | rfl | rfl | rfl | rfl <;> decide

lemma lookup_isSome_iff {β : Type} (acc : List (Char × β)) (k : Char) :
    (acc.lookup k).isSome = true ↔ k ∈ acc.map (fun p => p.1) := by
  induction acc with
  | nil => simp [List.lookup]
  | cons p acc ih =>
    rcases p with ⟨a, b⟩
    by_cases hk : k = a
    · subst hk
      simp [List.lookup]
    · have hbeq : (k == a) = false := by simpa using hk
      simp [List.lookup, hbeq, ih, hk]

lemma lookup_map_snd {β γ : Type} (f : β → γ) (k : Char) :
    ∀ (l : List (Char × β)),
      (l.map (fun p => (p.1, f p.2))).lookup k = (l.lookup k).map f := by
  intro l
  induction l with
  | nil => simp [List.lookup]
  | cons p l ih =>
    rcases p with ⟨a, b⟩
    by_cases hk : k = a
    · subst hk
      simp [List.lookup]
    · have hbeq : (k == a) = false := by simpa using hk
      simp [List.lookup, hbeq, ih]

/-- Two-directional specification of the `_parse_options` line loop, by
induction over the remaining lines with an arbitrary accumulator. -/
lemma parseLoop_spec : ∀ (lines : List (List Char)) (acc : List (Char × List Char)),
    (∀ l ∈ lines, l ≠ [] ∧ isWS (l.headD ' ') = false ∧
      isWS (l.getLastD ' ') = false) →
    (((∀ l ∈ lines, lineAccepted l) ∧
      (∀ lab ∈ lines.map lineLabel, (acc.lookup lab).isSome = false) ∧
      (lines.map lineLabel).Nodup →
        ∃ parsed, parseLoop lines acc = Except.ok parsed ∧
          parsed.map (fun p => p.1) = acc.map (fun p => p.1) ++ lines.map lineLabel ∧
          (∀ p ∈ parsed, p ∈ acc ∨ p.2 ≠ [])) ∧
    (∀ parsed, parseLoop lines acc = Except.ok parsed →
       (∀ l ∈ lines, lineAccepted l) ∧
       (∀ lab ∈ lines.map lineLabel, (acc.lookup lab).isSome = false) ∧
       (lines.map lineLabel).Nodup ∧
       parsed.map (fun p => p.1) = acc.map (fun p => p.1) ++ lines.map lineLabel ∧
       (∀ p ∈ parsed, p ∈ acc ∨ p.2 ≠ []))) := by
  intro lines
  induction lines with
  | nil =>
    intro acc _
    constructor
    · intro _
      exact ⟨acc, rfl, by simp, fun p hp => Or.inl hp⟩
    · intro parsed h
      cases h
      exact ⟨by simp, by simp, by simp, by simp, fun p hp => Or.inl hp⟩
  | cons line rest ih =>
    intro acc hstr
    obtain ⟨hne, hhead, hlast⟩ := hstr line (by simp)
    have hstr' : ∀ l ∈ rest, l ≠ [] ∧ isWS (l.headD ' ') = false ∧
        isWS (l.getLastD ' ') = false := fun l hl => hstr l (by simp [hl])
    obtain ⟨hacc, hsome, hnone⟩ := matchOptionLine_accepted line hne hhead hlast
    constructor
    · rintro ⟨haccept, hfresh, hnodup⟩
      obtain ⟨g2, hg2, hg2strip⟩ := hacc (haccept line (by simp))
      rw [parseLoop, hg2]
      simp only
      have hf0 : (acc.lookup (lineLabel line)).isSome = false :=
        hfresh (lineLabel line) (by simp)
      rw [lineLabel] at hf0
      rw [Bool.eq_false_iff] at hf0
      rw [if_neg hf0]
      have hts : (pyStripList g2).isEmpty = false := by
        rcases hps : pyStripList g2 with _ | _
        · exact absurd hps hg2strip
        · rfl
      rw [hts]
      simp only [Bool.false_eq_true, if_false]
      have hfresh' : ∀ lab ∈ rest.map lineLabel,
          ((acc ++ [((line.headD ' ').toUpper, pyStripList g2)]).lookup lab).isSome
            = false := by
        intro lab hlab
        rw [List.lookup_append]
        have h1 : (acc.lookup lab).isSome = false := hfresh lab (by simp [hlab])
        have h2 : lab ≠ (line.headD ' ').toUpper := by
          intro hc
          have : lineLabel line ∈ rest.map lineLabel := by
            rw [lineLabel, ← hc]
            exact hlab
          rw [List.map_cons] at hnodup
          exact (List.nodup_cons.mp hnodup).1 this
        have hbeq : (lab == (line.headD ' ').toUpper) = false := by simpa using h2
        rcases hl1 : acc.lookup lab with _ | v
        · have hlk : List.lookup lab [((line.headD ' ').toUpper, pyStripList g2)]
              = none := by
            rw [List.lookup, hbeq]
            rfl
          rw [hlk]
          rfl
        · rw [hl1] at h1
          cases h1
      have hnodup' : (rest.map lineLabel).Nodup := by
        rw [List.map_cons] at hnodup
        exact (List.nodup_cons.mp hnodup).2
      obtain ⟨parsed, hok, hkeys, htexts⟩ :=
        (ih (acc ++ [((line.headD ' ').toUpper, pyStripList g2)]) hstr').1
          ⟨fun l hl => haccept l (by simp [hl]), hfresh', hnodup'⟩
      refine ⟨parsed, hok, ?_, ?_⟩
      · rw [hkeys]
        simp [lineLabel]
      · intro p hp
        rcases htexts p hp with hin | hne2
        · rcases List.mem_append.mp hin with h1 | h1
          · exact Or.inl h1
          · right
            have : p = ((line.headD ' ').toUpper, pyStripList g2) := by simpa using h1
            rw [this]
            exact hg2strip
        · exact Or.inr hne2
    · intro parsed h
      rw [parseLoop] at h
      rcases hml : matchOptionLine line with _ | cg
      · rw [hml] at h
        cases h
      · rcases cg with ⟨c, g2⟩
        rw [hml] at h
        simp only at h
        obtain ⟨hc, haccl⟩ := hsome c g2 hml
        by_cases hdup : (acc.lookup c.toUpper).isSome = true
        · rw [if_pos hdup] at h
          cases h
        · rw [if_neg hdup] at h
          by_cases hemp : (pyStripList g2).isEmpty = true
          · rw [if_pos hemp] at h
            cases h
          · rw [if_neg hemp] at h
            obtain ⟨haccept', hfresh', hnodup', hkeys', htexts'⟩ :=
              (ih (acc ++ [(c.toUpper, pyStripList g2)]) hstr').2 parsed h
            have hlabc : lineLabel line = c.toUpper := by
              rw [lineLabel, hc]
            refine ⟨?_, ?_, ?_, ?_, ?_⟩
            · intro l hl
              rcases List.mem_cons.mp hl with h1 | h1
              · rw [h1]; exact haccl
              · exact haccept' l h1
            · intro lab hlab
              rw [List.map_cons, List.mem_cons] at hlab
              rcases hlab with h1 | h1
              · rw [h1, hlabc]
                exact Bool.eq_false_iff.mpr hdup
              · have hco := hfresh' lab h1
                rw [List.lookup_append] at hco
                rcases hl1 : acc.lookup lab with _ | v
                · rfl
                · rw [hl1] at hco
                  simp at hco
            · rw [List.map_cons, List.nodup_cons]
              refine ⟨?_, hnodup'⟩
              intro hmem
              have hco := hfresh' (lineLabel line) hmem
              rw [List.lookup_append, hlabc] at hco
              rcases hl1 : acc.lookup c.toUpper with _ | v
              · rw [hl1] at hco
                simp [List.lookup] at hco
              · rw [hl1] at hco
                simp at hco
            · rw [hkeys']
              simp [hlabc]
            · intro p hp
              rcases htexts' p hp with hin | hne2
              · rcases List.mem_append.mp hin with h1 | h1
                · exact Or.inl h1
                · right
                  have hp2 : p = (c.toUpper, pyStripList g2) := by simpa using h1
                  subst hp2
                  show pyStripList g2 ≠ []
                  intro hcon
                  apply hemp
                  rw [hcon]
                  rfl
              · exact Or.inr hne2

lemma labels_sub_expected (t : List Char)
    (hacc : ∀ l ∈ optionLines t, lineAccepted l) :
    ∀ k ∈ (optionLines t).map lineLabel, k ∈ expectedLabels := by
  intro k hk
  obtain ⟨l, hl, hkl⟩ := List.mem_map.mp hk
  obtain ⟨hlab, -⟩ := hacc l hl
  rw [← hkl, lineLabel]
  exact labelChar_toUpper _ hlab

lemma parse_options_ok_elim (text : String)
    (v : List String × List (Char × String))
    (h : parse_options text = Except.ok v) :
    ∃ parsedC, (optionLines text.toList).length = 4 ∧
      parseLoop (optionLines text.toList) [] = Except.ok parsedC ∧
      v = (expectedLabels.map (fun lbl =>
             String.mk [lbl] ++ ") " ++ String.mk ((parsedC.lookup lbl).getD [])),
           parsedC.map (fun p => (p.1, String.mk p.2))) := by
  rw [parse_options] at h
  by_cases h4 : (optionLines text.toList).length ≠ 4
  · rw [if_pos h4] at h
    cases h
  · rw [if_neg h4] at h
    rcases hpl : parseLoop (optionLines text.toList) [] with e | parsedC
    · rw [hpl] at h
      cases h
    · rw [hpl] at h
      simp only at h
      split_ifs at h with hchk
      all_goals cases h
      all_goals exact ⟨parsedC, not_ne_iff.mp h4, rfl, rfl⟩

/-- C2 (amended): `_parse_options` requires exactly 4 non-empty lines and
succeeds **iff** every stripped line starts with a label character
`[A-Da-d]` followed by at least one more character and the 4 uppercased
labels are pairwise distinct (whence exactly `{A,B,C,D}`).  The accepted
separator class is `)`, `-`, `.`, `:` — the comma is *not* a separator —
and a lone trailing separator is swallowed by the backtracking `(.+)`
rather than rejected as empty text.  On success the result is normalized to
`"A) text"` form sorted by label, each text non-empty, every label present;
every violation is a single `ValueError` with no partial acceptance. -/
theorem C2_parse_options (text : String) :
    ((optionLines text.toList).length ≠ 4 →
       parse_options text = Except.error ParseErr.invalidLineCount) ∧
    ((∃ v, parse_options text = Except.ok v) ↔
       ((optionLines text.toList).length = 4 ∧
        (∀ l ∈ optionLines text.toList, lineAccepted l) ∧
        ((optionLines text.toList).map lineLabel).Nodup)) ∧
    (∀ opts parsed, parse_options text = Except.ok (opts, parsed) →
       parsed.map (fun p => p.1) = (optionLines text.toList).map lineLabel ∧
       (∀ p ∈ parsed, p.1 ∈ expectedLabels ∧ p.2 ≠ "") ∧
       (∀ lbl ∈ expectedLabels, (parsed.lookup lbl).isSome = true) ∧
       opts = expectedLabels.map (fun lbl =>
         String.mk [lbl] ++ ") " ++ (parsed.lookup lbl).getD "")) := by
  have hstr := optionLines_stripped text.toList
  refine ⟨fun h4 => ?_, ⟨fun hok => ?_, fun hcond => ?_⟩, fun opts parsed hok => ?_⟩
  · rw [parse_options, if_pos h4]
  · obtain ⟨v, hv⟩ := hok
    obtain ⟨parsedC, h4, hpl, -⟩ := parse_options_ok_elim text v hv
    obtain ⟨hacc, -, hnodup, -, -⟩ :=
      (parseLoop_spec (optionLines text.toList) [] hstr).2 parsedC hpl
    exact ⟨h4, hacc, hnodup⟩
  · obtain ⟨h4, hacc, hnodup⟩ := hcond
    obtain ⟨parsedC, hpl, hkeys, -⟩ :=
      (parseLoop_spec (optionLines text.toList) [] hstr).1
        ⟨hacc, fun lab _ => rfl, hnodup⟩
    rw [List.map_nil, List.nil_append] at hkeys
    have hsub : parsedC.map (fun p => p.1) ⊆ expectedLabels := by
      intro k hk
      rw [hkeys] at hk
      exact labels_sub_expected text.toList hacc k hk
    have hperm : (parsedC.map (fun p => p.1)).Perm expectedLabels := by
      apply List.Subperm.perm_of_length_le
      · exact List.Nodup.subperm (by rw [hkeys]; exact hnodup) hsub
      · have h1 : (parsedC.map (fun p => p.1)).length = 4 := by
          rw [hkeys, List.length_map, h4]
        rw [h1]
        rfl
    have hchk : (expectedLabels.all (fun l => (parsedC.map (fun p => p.1)).contains l)
        && (parsedC.map (fun p => p.1)).all (fun l => expectedLabels.contains l))
          = true := by
      rw [Bool.and_eq_true, List.all_eq_true, List.all_eq_true]
      constructor
      · intro x hx
        simpa [List.contains] using hperm.mem_iff.mpr hx
      · intro x hx
        simpa [List.contains] using hsub hx
    refine ⟨(expectedLabels.map (fun lbl =>
        String.mk [lbl] ++ ") " ++ String.mk ((parsedC.lookup lbl).getD [])),
      parsedC.map (fun p => (p.1, String.mk p.2))), ?_⟩
    rw [parse_options, if_neg (fun hc => hc h4), hpl]
    simp only
    rw [if_neg (not_not_intro hchk)]
  · obtain ⟨parsedC, h4, hpl, hv⟩ := parse_options_ok_elim text (opts, parsed) hok
    obtain ⟨hacc, -, hnodup, hkeys, htexts⟩ :=
      (parseLoop_spec (optionLines text.toList) [] hstr).2 parsedC hpl
    rw [List.map_nil, List.nil_append] at hkeys
    have hov : opts = expectedLabels.map (fun lbl =>
        String.mk [lbl] ++ ") " ++ String.mk ((parsedC.lookup lbl).getD [])) :=
      congrArg Prod.fst hv
    have hpv : parsed = parsedC.map (fun p => (p.1, String.mk p.2)) :=
      congrArg Prod.snd hv
    have hkeysS : parsed.map (fun p => p.1) = parsedC.map (fun p => p.1) := by
      rw [hpv, List.map_map]
      rfl
    have hsub : parsedC.map (fun p => p.1) ⊆ expectedLabels := by
      intro k hk
      rw [hkeys] at hk
      exact labels_sub_expected text.toList hacc k hk
    have hperm : (parsedC.map (fun p => p.1)).Perm expectedLabels := by
      apply List.Subperm.perm_of_length_le
      · exact List.Nodup.subperm (by rw [hkeys]; exact hnodup) hsub
      · have h1 : (parsedC.map (fun p => p.1)).length = 4 := by
          rw [hkeys, List.length_map, h4]
        rw [h1]
        rfl
    refine ⟨by rw [hkeysS, hkeys], ?_, ?_, ?_⟩
    · intro p hp
      rw [hpv] at hp
      obtain ⟨q, hq, hqp⟩ := List.mem_map.mp hp
      constructor
      · rw [← hqp]
        exact hsub (List.mem_map.mpr ⟨q, hq, rfl⟩)
      · rw [← hqp]
        rcases htexts q hq with hin | hne2
        · cases hin
        · intro hcon
          apply hne2
          have := congrArg String.data hcon
          simpa using this
    · intro lbl hlbl
      have hmem : lbl ∈ parsedC.map (fun p => p.1) := hperm.mem_iff.mpr hlbl
      have hsome := (lookup_isSome_iff parsedC lbl).mpr hmem
      rw [hpv, lookup_map_snd]
      rcases hl : parsedC.lookup lbl with _ | t
      · rw [hl] at hsome
        cases hsome
      · rfl
    · rw [hov, hpv]
      apply List.map_congr_left
      intro lbl _
      rw [lookup_map_snd]
      rcases hl : parsedC.lookup lbl with _ | t
      · rfl
      · rfl

/-- C2 counterexample: the claim lists the comma among the accepted
separator characters, under which the line `"D,"` would have an empty
option text and the whole input would be rejected as `InvalidFormat`.  The
code's separator class `[)\-\.:]` has no comma: the line is accepted with
the comma as part of the text, and the input parses successfully to
`"D) ,"`. -/
theorem C2_counterexample :
    parse_options "A) x\nB) y\nC) z\nD," =
      Except.ok (["A) x", "B) y", "C) z", "D) ,"],
        [('A', "x"), ('B', "y"), ('C', "z"), ('D', ",")]) := rfl

/-- Witness: the line-count error and the success-side normalization of the
amended parser contract, at concrete inputs. -/
theorem C2_parse_options_witness :
    parse_options "A) x\nB) y\nC) z" = Except.error ParseErr.invalidLineCount ∧
    ([('A', "x"), ('B', "y"), ('C', "z"), ('D', "w")].map
        (fun p => p.1)) =
      ((optionLines ("A) x\nB) y\nC) z\nD) w").toList).map lineLabel) := by
  constructor
  · exact (C2_parse_options "A) x\nB) y\nC) z").1 (by decide)
  · exact (((C2_parse_options "A) x\nB) y\nC) z\nD) w").2.2)
      ["A) x", "B) y", "C) z", "D) w"]
      [('A', "x"), ('B', "y"), ('C', "z"), ('D', "w")] rfl).1

/-! Section: Witnesses -/

/-- Witness: the three `start_quiz` outcomes at concrete inputs — empty
bank, request above the bank size, and a request for exactly the bank
size. -/
theorem C5_start_quiz_spec_witness :
    start_quiz [] 7 3 [] stW = (Except.error StartError.emptyBank, stW) ∧
    start_quiz [rowA] 7 5 [] stW = (Except.error StartError.invalidCount, stW) ∧
    start_quiz [rowA] 7 1 [] stW =
      (Except.ok (([rowA].filter (fun r => decide (r.user_id = 7))).map toMcq),
       { current_quiz :=
           some (([rowA].filter (fun r => decide (r.user_id = 7))).map toMcq),
         current_question := some 0, score := some 0 }) := by
  refine ⟨(C5_start_quiz_spec [] 7 3 [] stW).1 rfl, ?_, ?_⟩
  · exact (C5_start_quiz_spec [rowA] 7 5 [] stW).2.1 (by decide) (Or.inr (by decide))
  · exact (C5_start_quiz_spec [rowA] 7 1 [] stW).2.2.2 (by decide) (by decide)

/-- Witness: a failed start (empty bank) leaves a non-trivial prior session
untouched. -/
theorem C10_failed_start_witness : (start_quiz [] 7 3 [] stW).2 = stW :=
  C10_failed_start_preserves_session [] 7 3 [] stW StartError.emptyBank rfl

/-- Witness: the weight bounds at a never-attempted question, the strict
lower bound at a question with positive attempts and accuracy below 1, and
monotonicity between a mastered and a never-correct question with equal
attempts. -/
theorem C6_weight_formula_witness :
    ((0.2 : ℚ) ≤ weight rowX1 ∧ weight rowX1 ≤ (1.2 : ℚ)) ∧
    (0.2 : ℚ) < weight rowBad ∧
    weight rowMastered ≤ weight rowBad := by
  refine ⟨(C6_weight_formula rowX1 [] 0 0 []).2.2.1 (by norm_num [rowX1])
      (by norm_num [rowX1]), ?_, ?_⟩
  · exact (C6_weight_formula rowBad [] 0 0 []).2.2.2.1 (by norm_num [rowBad,
      rowMastered]) (by norm_num [rowBad, rowMastered])
  · exact (C6_weight_formula rowMastered [] 0 0 []).2.2.2.2.1 rowBad rfl
      (by norm_num [rowMastered]) (by norm_num [rowBad, rowMastered])

/-- Witness: `update_question` and `delete_question` refuse an unknown id
and leave the table unchanged, and a successful update resets the
statistics while rewriting only the supplied field. -/
theorem C7_update_delete_witness :
    update_question [rowA] 99 7 none none none none = (false, [rowA]) ∧
    delete_question [rowA] 99 7 = (false, [rowA]) ∧
    (update_question [rowA] 10 7 (some "nq") none none none).1 = true ∧
    updatedRow (some "nq") none none none ([rowA].getD 0 default)
      ((update_question [rowA] 10 7 (some "nq") none none none).2.getD 0
        default) := by
  obtain ⟨h1, h2⟩ :=
    (C7_update_delete_ownership [rowA] 99 7 none none none none).1 (by decide)
  refine ⟨h1, h2, ?_, ?_⟩
  · exact ((C7_update_delete_ownership [rowA] 10 7 (some "nq") none none none).2
      (by decide)).1
  · exact (((C7_update_delete_ownership [rowA] 10 7 (some "nq") none none
      none).2 (by decide)).2.2.1 0 (by decide)).2 (by decide)

/-- Witness: answering the current question returns the graded dict and
bumps the score on a match, at a concrete one-question session. -/
theorem C8_process_answer_witness :
    (process_answer [rowA] [] 7 "A" s8).result =
      some { is_correct := ("A" == (toMcq rowA).correct_answer),
             correct_answer := (toMcq rowA).correct_answer,
             explanation := (toMcq rowA).explanation } ∧
    (process_answer [rowA] [] 7 "A" s8).session.score = some (s8.scoreD + 1) := by
  constructor
  · exact ((C8_process_answer_frame [rowA] [] 7 "A" s8).2.2.2.1 (toMcq rowA)
      rfl).1
  · exact ((C8_process_answer_frame [rowA] [] 7 "A" s8).2.2.2.1 (toMcq rowA)
      rfl).2.2.2.2.1 (by decide)

/-- Witness: the summary percentage conventions at concrete sessions — `0`
for an empty snapshot, `score/total*100` otherwise. -/
theorem C9_summary_progress_witness :
    (get_quiz_summary (Session.mk none none none)).percentage = 0 ∧
    (get_quiz_summary (Session.mk (some [mA]) (some 1) (some 1))).percentage =
      ((Session.mk (some [mA]) (some 1) (some 1)).scoreD : ℚ) /
        ((Session.mk (some [mA]) (some 1) (some 1)).quizD.length : ℚ) * 100 := by
  constructor
  · exact (C9_summary_progress (Session.mk none none none)).2.2.1 rfl
  · exact (C9_summary_progress (Session.mk (some [mA]) (some 1)
      (some 1))).2.2.2.1 (by decide)

/-- Witness: deleting a question positioned strictly before the current
index preserves the still-to-show tail of the snapshot exactly. -/
theorem C3_session_delete_witness :
    (delete_from_session (Session.mk (some [mA, mB, mC]) (some 2)
        (some 0)) 0).quizD.drop
      (delete_from_session (Session.mk (some [mA, mB, mC]) (some 2)
        (some 0)) 0).idxD =
    (Session.mk (some [mA, mB, mC]) (some 2) (some 0)).quizD.drop
      (Session.mk (some [mA, mB, mC]) (some 2) (some 0)).idxD := by
  exact ((C3_session_delete (Session.mk (some [mA, mB, mC]) (some 2)
    (some 0)) 0).2 0 rfl).2.2.2 (by decide)

end StudyMCQ
